import Mathlib

/-!
Verification of the core engine of `Depo_Sch_AMARG_enhanced_v7.1.py`
(aircraft depot maintenance scheduling, v7.1).

Python text fields are modelled as `List Char` (one entry per character),
Python `str.upper()` as character-wise ASCII uppercasing (`Char.toUpper`,
identical behaviour on the ASCII range), `str.replace(a, b)` for
single-character patterns as a character map over the whole string
(Python `replace` substitutes every occurrence), and pandas timestamps as
integer day numbers (days since 1970-01-01), with explicit civil-calendar
conversion wherever the source does month-granularity arithmetic.
-/

namespace DepoSched

/-- Python `str.upper()` on a text field: character-wise ASCII uppercase. -/
def pyUpper (s : List Char) : List Char := s.map Char.toUpper

/-- Python `s.replace(a, b)` for one-character `a`, `b`: every occurrence of
`a` is replaced (Python `str.replace` substitutes all occurrences). -/
def replAll (a b : Char) (s : List Char) : List Char :=
  s.map (fun c => if c = a then b else c)

/-- Function `get_next_pmi_task` (source lines 808-815): uppercase the task,
and if the uppercased text contains the digit 1, replace 1 by 2 in the
original task text, otherwise replace 2 by 1. -/
def get_next_pmi_task (current_task : List Char) : List Char :=
  if '1' ∈ pyUpper current_task then
    replAll '1' '2' current_task
  else
    replAll '2' '1' current_task

/-- Modelled from the spec: the spec asserts the 1↔2 alternation is "a textual
substitution ... only the first occurrence is replaced".  This definition
follows the spec wording (replace only the first occurrence); it is compared
against `get_next_pmi_task`, which embeds the source. -/
def replaceFirst (a b : Char) : List Char → List Char
  | [] => []
  | c :: rest => if c = a then b :: rest else c :: replaceFirst a b rest

/-- Modelled from the spec: the toggle as the spec words it (first occurrence
only). -/
def get_next_pmi_task_specFirst (current_task : List Char) : List Char :=
  if '1' ∈ pyUpper current_task then
    replaceFirst '1' '2' current_task
  else
    replaceFirst '2' '1' current_task

/-! ### Key assignment and dedup (`add_enhanced_buno_key`, source lines 842-865)

A ledger row enters the key pass with its `BUNO`, `FY` and `TASK` fields
already stringified (`astype(str)` in the source); we model them as the
string fields of `KeyRec`.  The decimal rendering of the pandas `cumcount`
sequence number is modelled by `natChars` (digits of the number, most
significant first, with `0` rendered as the single character 0). -/

def natDigitsAux : Nat → Nat → List Nat
  | 0, _ => []
  | _ + 1, 0 => []
  | fuel + 1, n + 1 => ((n + 1) % 10) :: natDigitsAux fuel ((n + 1) / 10)

/-- Base-10 digits of `n`, least significant first (`[]` for `0`). -/
def natDigits (n : Nat) : List Nat := natDigitsAux n n

/-- Decimal string of a natural number (Python `str(n)` for `n : int ≥ 0`). -/
def natChars (n : Nat) : List Char :=
  if n = 0 then ['0'] else ((natDigits n).map Nat.digitChar).reverse

/-- One ledger row as seen by the key pass: the stringified `BUNO`, `FY` and
`TASK` columns. -/
structure KeyRec where
  buno : List Char
  fy : List Char
  task : List Char
deriving DecidableEq

/-- Key construction: `BUNO + "_" + FY + "_" + TASK` (source line 844). -/
def origKey (r : KeyRec) : List Char :=
  r.buno ++ '_' :: r.fy ++ '_' :: r.task

/-- The key assigned to the row at position `i`: pandas marks every member of
a group of size ≥ 2 as a duplicate (`duplicated(keep=False)`), computes the
0-based position of each row inside its key group (`groupby.cumcount()`), and
appends `"_" + str(cumcount)` to the key of every duplicate-marked row
(source lines 846-855). -/
def newKeyAt (ks : List (List Char)) (i : Nat) : List Char :=
  if 2 ≤ ks.count (ks.getD i []) then
    ks.getD i [] ++ '_' :: natChars ((ks.take i).count (ks.getD i []))
  else ks.getD i []

/-- Function `add_enhanced_buno_key`: the list of final `BUNO_key` values, one per row,
in row order. -/
def add_enhanced_buno_key (rows : List KeyRec) : List (List Char) :=
  (List.range rows.length).map (newKeyAt (rows.map origKey))

/-- Three rows exercising the suffix-collision hole: two rows share the key
`100_2024_T` and a third row has the key `100_2024_T_1` already. -/
def dedupCxRows : List KeyRec :=
  [⟨"100".data, "2024".data, "T".data⟩,
   ⟨"100".data, "2024".data, "T".data⟩,
   ⟨"100".data, "2024".data, "T_1".data⟩]

/-! ### Calendar model

A pandas timestamp is modelled at day granularity as an integer day number
(days since 1970-01-01).  `Timedelta(days = n)` is `+ n`; month-granularity
arithmetic (`DateOffset(months = n)`, with the day of month clamped to the
target month's length, as pandas does) and the month/year accessors go
through the standard proleptic-Gregorian civil-date conversion. -/

def isLeap (y : Int) : Bool :=
  y % 4 = 0 && (y % 100 ≠ 0 || y % 400 = 0)

def daysInMonth (y m : Int) : Int :=
  if m = 2 then (if isLeap y then 29 else 28)
  else if m = 4 ∨ m = 6 ∨ m = 9 ∨ m = 11 then 30
  else 31

/-- Day number → (year, month, day) in the proleptic Gregorian calendar. -/
def civilFromDays (z0 : Int) : Int × Int × Int :=
  let z := z0 + 719468
  let era := z.fdiv 146097
  let doe := z - era * 146097
  let yoe := (doe - doe.fdiv 1460 + doe.fdiv 36524 - doe.fdiv 146096).fdiv 365
  let y := yoe + era * 400
  let doy := doe - (365 * yoe + yoe.fdiv 4 - yoe.fdiv 100)
  let mp := (5 * doy + 2).fdiv 153
  let d := doy - (153 * mp + 2).fdiv 5 + 1
  let m := if mp < 10 then mp + 3 else mp - 9
  (if m ≤ 2 then y + 1 else y, m, d)

/-- Conversion (year, month, day) → day number, inverse of `civilFromDays`. -/
def daysFromCivil (y m d : Int) : Int :=
  let y1 := if m ≤ 2 then y - 1 else y
  let era := y1.fdiv 400
  let yoe := y1 - era * 400
  let mp := (m + 9) % 12
  let doy := (153 * mp + 2).fdiv 5 + d - 1
  let doe := yoe * 365 + yoe.fdiv 4 - yoe.fdiv 100 + doy
  era * 146097 + doe - 719468

def tsYear (t : Int) : Int := (civilFromDays t).1

def tsMonth (t : Int) : Int := (civilFromDays t).2.1

def tsDay (t : Int) : Int := (civilFromDays t).2.2

/-- Offset `pd.DateOffset(months = n)`: add `n` calendar months, clamping the day of
month to the length of the target month. -/
def addMonths (t n : Int) : Int :=
  let total := tsYear t * 12 + (tsMonth t - 1) + n
  let y2 := total.fdiv 12
  let m2 := total % 12 + 1
  daysFromCivil y2 m2 (min (tsDay t) (daysInMonth y2 m2))

/-! ### Fiscal calendar (`calculate_fiscal_year` / `calculate_fiscal_quarter`,
source lines 311-360)

A missing or unparseable date yields `none`; on a valid timestamp the
fiscal year is `year + 1` when `month ≥ 10` else `year`, and the quarter is
Oct-Dec → 1, Jan-Mar → 2, Apr-Jun → 3, Jul-Sep → 4. -/

def fiscalYearOfDay (t : Int) : Int :=
  if tsMonth t ≥ 10 then tsYear t + 1 else tsYear t

def fiscalQuarterOfDay (t : Int) : Int :=
  if tsMonth t ≥ 10 then 1
  else if tsMonth t ≤ 3 then 2
  else if tsMonth t ≤ 6 then 3
  else 4

def calculate_fiscal_year (d : Option Int) : Option Int :=
  d.map fiscalYearOfDay

def calculate_fiscal_quarter (d : Option Int) : Option Int :=
  d.map fiscalQuarterOfDay

/-! ### Ledger fiscal backfill (step 9 of `run_processing`, source lines
1028-1035)

For one stream (dataframe) of the unified ledger: the `QTR` column is
recomputed from the `START DATE` column only when the `QTR` column is absent
or entirely null (an absent column is modelled as an all-`none` column), and
then likewise for `FY`. -/

structure LedgerRec where
  start : Option Int
  fy : Option Int
  qtr : Option Int
deriving DecidableEq

def fiscalStep (l : List LedgerRec) : List LedgerRec :=
  let l1 :=
    if l.all (fun r => r.qtr.isNone) then
      l.map (fun r => { r with qtr := calculate_fiscal_quarter r.start })
    else l
  if l1.all (fun r => r.fy.isNone) then
    l1.map (fun r => { r with fy := calculate_fiscal_year r.start })
  else l1

/-- A stream in which one record already carries fiscal values while another
record's fiscal values are null (its start date, day number 0, is
1970-01-01: fiscal year 1970, fiscal quarter 2). -/
def fiscalCxRows : List LedgerRec :=
  [{ start := some 0, fy := some 1970, qtr := some 2 },
   { start := some 0, fy := none, qtr := none }]

/-! ### MAF 546-day extraction (`analyze_maf_546_events`, source lines 396-518) -/

/-- Python `needle in hay` for strings: contiguous-substring test. -/
def isSubstring (needle : List Char) (hay : List Char) : Bool :=
  match hay with
  | [] => needle.isEmpty
  | _ :: rest => needle.isPrefixOf hay || isSubstring needle rest

/-- Python `str.strip()`: drop whitespace from both ends. -/
def pyStrip (s : List Char) : List Char :=
  ((s.dropWhile Char.isWhitespace).reverse.dropWhile Char.isWhitespace).reverse

/-- Constant `DAY_546_OFFSET = 21` (source line 73). -/
def DAY_546_OFFSET : Int := 21

/-- One raw MAF row.  A date column is `none` when missing/NaN/blank,
`some none` when present but unparseable (`pd.to_datetime(..., coerce)`
yields `NaT`, so the loop moves on), and `some (some t)` when it parses to
the timestamp `t`. -/
structure MafRow where
  wuc : List Char
  workCenter : List Char
  reason : List Char
  buno : Option Int
  jcn : List Char
  mcn : List Char
  recvDateTime : Option (Option Int)
  recvDate : Option (Option Int)
  inWorkDate : Option (Option Int)
  compDateTime : Option (Option Int)
  compDate : Option (Option Int)
deriving DecidableEq

/-- The three 546-day criteria (source lines 413-422): `WUC == "030000P"`,
work center `"020"` or `"20"`, and `"546"` occurring in the uppercased
reason description — all required. -/
def maf546Match (row : MafRow) : Bool :=
  (pyStrip row.wuc == "030000P".data) &&
  (pyStrip row.workCenter == "020".data || pyStrip row.workCenter == "20".data) &&
  isSubstring "546".data (pyUpper row.reason)

/-- The five date columns in fixed priority order (source lines 431-437). -/
def mafDateFields (row : MafRow) : List (Option (Option Int)) :=
  [row.recvDateTime, row.recvDate, row.inWorkDate, row.compDateTime, row.compDate]

/-- First date column (by priority) that is present and parses; returns the
0-based priority index of the column used and the parsed date
(source lines 439-452). -/
def selectStartAux : Nat → List (Option (Option Int)) → Option (Nat × Int)
  | _, [] => none
  | i, f :: rest =>
    match f with
    | some (some d) => some (i, d)
    | _ => selectStartAux (i + 1) rest

def selectStart (fields : List (Option (Option Int))) : Option (Nat × Int) :=
  selectStartAux 0 fields

/-- Python truthiness of an optional int: `None` and `0` are falsy. -/
def pyTruthyOptInt : Option Int → Bool
  | none => false
  | some v => v != 0

/-- Decimal string of an integer (Python `str(int)`). -/
def intChars (i : Int) : List Char :=
  if i < 0 then '-' :: natChars (-i).toNat else natChars i.toNat

/-- One extracted 546-day event (source lines 468-496). -/
structure MafEvent where
  buno : Option Int
  startDate : Int
  finishDate : Int
  task : List Char
  wuc : List Char
  workCenter : List Char
  reason : List Char
  jcn : List Char
  mcn : List Char
  fy : Option Int
  qtr : Option Int
  rebase : Bool
  is546Event : Bool
  isAmarg : Bool
  chartVisible : Bool
  dateSource : Nat
  bunoKey : Option (List Char)
deriving DecidableEq

/-- Latest midnight a pandas `Timestamp` can represent, as a day number.
Timestamps are int64 nanoseconds since the epoch, so `pd.Timestamp.max` is
2262-04-11 23:47:16.854775807 and day 106751 (2262-04-11) is the last day
whose midnight fits (106752 × 86 400 000 000 000 ns exceeds 2^63 − 1). -/
def PD_MAX_DAY : Int := 106751

/-- The event extracted from one MAF row, if any.  The start date is whatever
the first parsing date column yields (a date only parses under
`pd.to_datetime(..., coerce)` when it is within the `Timestamp` bounds).
The finish date is obtained in the source by re-parsing the normalised
`YYYY-MM-DD` start string — which cannot fail — and adding
`pd.Timedelta(days = DAY_546_OFFSET)`: that addition is *bounded* int64
`Timestamp` arithmetic, so for a start date within 21 days of
`pd.Timestamp.max` it raises, the bare `except` catches it, and the
fallback reuses the start date (source lines 454-461).  The `BUNO_key` is
attached only when both `BUNO` and `FY` are truthy (source lines 494-495);
the row's event is appended regardless, with `BUNO = None` when the row's
`Buno` is missing (source line 470). -/
def maf_546_event_of_row (row : MafRow) : Option MafEvent :=
  if maf546Match row then
    match selectStart (mafDateFields row) with
    | some (src, d) =>
      some
        { buno := row.buno
          startDate := d
          finishDate := if d + DAY_546_OFFSET > PD_MAX_DAY then d else d + DAY_546_OFFSET
          task := "546DAY".data
          wuc := pyStrip row.wuc
          workCenter := pyStrip row.workCenter
          reason := row.reason
          jcn := row.jcn
          mcn := row.mcn
          fy := calculate_fiscal_year (some d)
          qtr := calculate_fiscal_quarter (some d)
          rebase := isSubstring "REBASE".data (pyUpper row.reason)
          is546Event := true
          isAmarg := false
          chartVisible := true
          dateSource := src
          bunoKey :=
            if pyTruthyOptInt row.buno && pyTruthyOptInt (calculate_fiscal_year (some d)) then
              some (intChars (row.buno.getD 0) ++ '_' ::
                intChars ((calculate_fiscal_year (some d)).getD 0) ++ '_' :: "546DAY".data)
            else none }
    | none => none
  else none

/-- Function `analyze_maf_546_events`: per-row extraction over the whole MAF table;
rows that do not match all three criteria, or have no parseable date among
the five columns, produce nothing. -/
def analyze_maf_546_events (rows : List MafRow) : List MafEvent :=
  rows.filterMap maf_546_event_of_row

/-- A qualifying MAF row (all three criteria hold, a date parses) whose
`Buno` is missing. -/
def mafNullBunoCxRow : MafRow :=
  { wuc := "030000P".data
    workCenter := "20".data
    reason := "546 DAY INSPECTION".data
    buno := none
    jcn := []
    mcn := []
    recvDateTime := none
    recvDate := some (some 100)
    inWorkDate := none
    compDateTime := none
    compDate := none }

/-- A qualifying MAF row whose date column parses to day 106741
(2262-04-01): within bounds itself, but adding 21 days would pass
`pd.Timestamp.max`, so the computation overflows and the fallback fires. -/
def mafOverflowCxRow : MafRow :=
  { wuc := "030000P".data
    workCenter := "20".data
    reason := "546 DAY INSPECTION".data
    buno := some 300
    jcn := []
    mcn := []
    recvDateTime := none
    recvDate := some (some 106741)
    inWorkDate := none
    compDateTime := none
    compDate := none }

/-! ### SLEP generation (`analyze_bumblebee_slep_events`, source lines 520-615)

Flight hours are modelled as integers; the classification only compares
against the integer thresholds, so the ordering semantics is unchanged. -/

def SLEP_1_THRESHOLD : Int := 10000

def SLEP_2_THRESHOLD : Int := 12000

def SLEP_3_THRESHOLD : Int := 14000

def MAX_LIFE_THRESHOLD : Int := 16000

/-- Anchor `pd.Timestamp` of 2020-07-01, the fixed SLEP scheduling start. -/
def BASE_SLEP_DATE : Int := daysFromCivil 2020 7 1

/-- One BumbleBee flight-hour observation row: `BUNO` and
`AI_Running_Total_Flight_Hours`, either possibly NaN. -/
structure BBRow where
  buno : Option Int
  flightHours : Option Int
deriving DecidableEq

/-- One generated SLEP event (source lines 581-599). -/
structure SlepEvent where
  buno : Int
  startDate : Int
  finishDate : Int
  task : List Char
  flightHours : Int
  fy : Option Int
  qtr : Option Int
  rebase : Bool
  is546Event : Bool
  isAmarg : Bool
  chartVisible : Bool
  bunoKey : List Char
deriving DecidableEq

/-- Build one SLEP event: the start date is the anchor plus
`2 weeks × counter` (one global counter, incremented per emitted event in
input order), the finish date is start plus the tier duration. -/
def mkSlepEvent (b fh : Int) (task : List Char) (dur : Int) (counter : Nat) : SlepEvent :=
  let start := BASE_SLEP_DATE + 14 * (counter : Int)
  { buno := b
    startDate := start
    finishDate := start + dur
    task := task
    flightHours := fh
    fy := calculate_fiscal_year (some start)
    qtr := calculate_fiscal_quarter (some start)
    rebase := false
    is546Event := false
    isAmarg := false
    chartVisible := true
    bunoKey := intChars b ++ '_' ::
      intChars ((calculate_fiscal_year (some start)).getD 0) ++ '_' :: task }

/-- The row loop with the global spacing counter: rows with NaN `BUNO` or
NaN flight hours are skipped, each remaining row is classified by the first
matching threshold from the top (`MAX_LIFE`, `SLEP_3`, `SLEP_2`, `SLEP_1`),
and rows below `SLEP_1` emit nothing and do not advance the counter. -/
def slepLoop : List BBRow → Nat → List SlepEvent
  | [], _ => []
  | r :: rest, counter =>
    match r.buno, r.flightHours with
    | some b, some fh =>
      if fh ≥ MAX_LIFE_THRESHOLD then
        mkSlepEvent b fh "MAX_AIRCRAFT_LIFE".data 180 counter :: slepLoop rest (counter + 1)
      else if fh ≥ SLEP_3_THRESHOLD then
        mkSlepEvent b fh "SLEP_3".data 90 counter :: slepLoop rest (counter + 1)
      else if fh ≥ SLEP_2_THRESHOLD then
        mkSlepEvent b fh "SLEP_2".data 90 counter :: slepLoop rest (counter + 1)
      else if fh ≥ SLEP_1_THRESHOLD then
        mkSlepEvent b fh "SLEP_1".data 90 counter :: slepLoop rest (counter + 1)
      else slepLoop rest counter
    | _, _ => slepLoop rest counter

/-- Function `analyze_bumblebee_slep_events`: the loop started with counter 0. -/
def analyze_bumblebee_slep_events (rows : List BBRow) : List SlepEvent :=
  slepLoop rows 0

/-- The tier classification stated by the spec: each emitted event belongs to
exactly one threshold band, with the band's task label and duration. -/
def slepTierSpec (e : SlepEvent) : Prop :=
  (MAX_LIFE_THRESHOLD ≤ e.flightHours ∧ e.task = "MAX_AIRCRAFT_LIFE".data ∧
    e.finishDate = e.startDate + 180) ∨
  (SLEP_3_THRESHOLD ≤ e.flightHours ∧ e.flightHours < MAX_LIFE_THRESHOLD ∧
    e.task = "SLEP_3".data ∧ e.finishDate = e.startDate + 90) ∨
  (SLEP_2_THRESHOLD ≤ e.flightHours ∧ e.flightHours < SLEP_3_THRESHOLD ∧
    e.task = "SLEP_2".data ∧ e.finishDate = e.startDate + 90) ∨
  (SLEP_1_THRESHOLD ≤ e.flightHours ∧ e.flightHours < SLEP_2_THRESHOLD ∧
    e.task = "SLEP_1".data ∧ e.finishDate = e.startDate + 90)

/-- Two observation rows for the same aircraft. -/
def slepDupCxRows : List BBRow :=
  [{ buno := some 1, flightHours := some 12000 },
   { buno := some 1, flightHours := some 12000 }]

/-! ### PMI projection engine (`generate_future_events_enhanced` and helpers,
source lines 700-840)

`sort_values('START DATE', ascending=False)` is modelled as a merge sort by
descending start date with missing dates last; the engine only uses the
first qualifying element of the sorted list, and no claim depends on the
order among rows with equal start dates. -/

def PROJECTION_END_YEAR : Int := 2052

def PMI_1_2_INTERVAL : Int := 42

def PMI_2_1_INTERVAL : Int := 42

/-- Horizon `pd.Timestamp(datetime(PROJECTION_END_YEAR, 12, 31))`. -/
def pmiEndDate : Int := daysFromCivil PROJECTION_END_YEAR 12 31

/-- One depot-history row for one aircraft, as used by the PMI engine. -/
structure DepotRow where
  buno : Option Int
  start : Option Int
  finish : Option Int
  task : Option (List Char)
  sqd : Option (List Char)
  tms : Option (List Char)
  isAmarg : Bool
deriving DecidableEq

/-- Descending comparison on start dates with missing dates last. -/
def startDescLe (a b : DepotRow) : Bool :=
  match a.start, b.start with
  | none, none => true
  | none, some _ => false
  | some _, none => true
  | some x, some y => y ≤ x

/-- Function `find_last_pmi_task` (source lines 799-806): first row, scanning by
descending start date, whose task is present and contains "PMI"
(case-insensitive); returns the task in its original case. -/
def find_last_pmi_task (df : List DepotRow) : Option (List Char) :=
  (df.mergeSort startDescLe).findSome? (fun r =>
    match r.task with
    | some t => if isSubstring "PMI".data (pyUpper t) then some t else none
    | none => none)

/-- Function `get_most_recent_date` (source lines 817-831): the max over all present
start and finish dates, `none` when there is none. -/
def get_most_recent_date (df : List DepotRow) : Option Int :=
  match (df.filterMap (fun r => r.start)).max?, (df.filterMap (fun r => r.finish)).max? with
  | some a, some b => some (max a b)
  | some a, none => some a
  | none, some b => some b
  | none, none => none

/-- The fallback branch of `get_last_squadron`: most recent non-null `SQD`
by descending start date. -/
def lastSqdFallback (df : List DepotRow) : Option (List Char) :=
  match (df.filter (fun r => r.sqd.isSome)).mergeSort startDescLe with
  | r :: _ => r.sqd
  | [] => none

/-- Function `get_last_squadron` (source lines 833-840): the `SQD` of the first row
whose start date equals the most recent date, when that `SQD` is non-null;
otherwise the most recent non-null `SQD` overall. -/
def get_last_squadron (df : List DepotRow) (lastDate : Int) : Option (List Char) :=
  match df.filter (fun r => r.start == some lastDate) with
  | r :: _ =>
    match r.sqd with
    | some s => some s
    | none => lastSqdFallback df
  | [] => lastSqdFallback df

/-- Function `get_tms_for_buno` (source lines 700-710): most recent non-null TMS by
descending start date. -/
def get_tms_for_buno (df : List DepotRow) : Option (List Char) :=
  match (df.filter (fun r => r.tms.isSome)).mergeSort startDescLe with
  | r :: _ => r.tms
  | [] => none

/-- The AMARG test on the derived squadron assignment (source line 739):
Python truthiness of the string (non-empty) and `"AMARG"` occurring in its
uppercased text. -/
def amargSqdCheck (sqd : Option (List Char)) : Bool :=
  match sqd with
  | some s => !s.isEmpty && isSubstring "AMARG".data (pyUpper s)
  | none => false

/-- One projected future PMI event (source lines 774-788). -/
structure FutureEvent where
  buno : Option Int
  tms : Option (List Char)
  startDate : Int
  finishDate : Int
  sqd : Option (List Char)
  task : List Char
  fy : Option Int
  qtr : Option Int
  rebase : Bool
  is546Event : Bool
  isAmarg : Bool
  chartVisible : Bool
deriving DecidableEq

def mkFutureEvent (buno : Option Int) (tms : Option (List Char)) (nd : Int)
    (task : List Char) : FutureEvent :=
  { buno := buno
    tms := tms
    startDate := nd
    finishDate := nd + DAY_546_OFFSET
    sqd := none
    task := task
    fy := calculate_fiscal_year (some nd)
    qtr := calculate_fiscal_quarter (some nd)
    rebase := false
    is546Event := false
    isAmarg := false
    chartVisible := true }

/-- The generation loop (source lines 748-792): while the current date is
before the horizon and fewer than `max_iterations = 100` iterations have
run, pick the interval by whether the current task text contains a 1, step
forward by that many calendar months, stop if the step reaches the horizon,
otherwise emit one event (finish 21 days later) and alternate the task.
`fuel` is the number of remaining iterations, initially 100. -/
def pmiLoop (i12 i21 : Int) (endDate : Int) (buno : Option Int)
    (tms : Option (List Char)) : Nat → Int → List Char → List FutureEvent
  | 0, _, _ => []
  | fuel + 1, currentDate, currentTask =>
    if currentDate < endDate then
      if addMonths currentDate (if '1' ∈ currentTask then i12 else i21) ≥ endDate then []
      else
        mkFutureEvent buno tms
            (addMonths currentDate (if '1' ∈ currentTask then i12 else i21)) currentTask ::
          pmiLoop i12 i21 endDate buno tms fuel
            (addMonths currentDate (if '1' ∈ currentTask then i12 else i21))
            (get_next_pmi_task currentTask)
    else []

/-- Function `generate_future_events_enhanced` (source lines 712-797): derive the
per-aircraft state, return nothing when no PMI task or no date exists or
when the aircraft is AMARG (by derived squadron text or by any flagged
historical row), otherwise run the capped generation loop from the most
recent date with the toggled task. -/
def generate_future_events_enhanced (buno : Option Int) (df : List DepotRow) :
    List FutureEvent :=
  match find_last_pmi_task df with
  | none => []
  | some lastPmiTask =>
    match get_most_recent_date df with
    | none => []
    | some lastDate =>
      if amargSqdCheck (get_last_squadron df lastDate) then []
      else if df.any (fun r => r.isAmarg) then []
      else
        pmiLoop PMI_1_2_INTERVAL PMI_2_1_INTERVAL pmiEndDate buno (get_tms_for_buno df)
          100 lastDate (get_next_pmi_task lastPmiTask)

/-- The derived unit assignment of an aircraft: the last squadron as of the
most recent date, `none` when no date exists. -/
def lastSqdOf (df : List DepotRow) : Option (List Char) :=
  match get_most_recent_date df with
  | some d => get_last_squadron df d
  | none => none

/-- A depot history of one row, flagged AMARG, with a PMI task and a date. -/
def amargCxRow : DepotRow :=
  { buno := some 5
    start := some 0
    finish := none
    task := some "PMI1".data
    sqd := some "HSM-40".data
    tms := none
    isAmarg := true }

/-! ### Final ledger sort (step 13 of `run_processing`, source line 1086)

`sort_values(['BUNO', 'START DATE'])` with multiple sort columns dispatches
to numpy `lexsort`, an indirect *stable* ascending lexicographic sort with
missing keys placed last; it is modelled as a stable merge sort by the
lexicographic (aircraft id, start date) key. -/

/-- A row of the combined ledger as the final sort sees it: the two sort
keys plus an opaque payload standing for all remaining columns. -/
structure CombinedRow where
  buno : Option Int
  start : Option Int
  payload : Nat
deriving DecidableEq

/-- Order embedding of an optional sort key: missing values sort last. -/
def optKey (x : Option Int) : Bool ×ₗ Int :=
  match x with
  | none => toLex (true, 0)
  | some v => toLex (false, v)

/-- The lexicographic sort key (aircraft id, then start date). -/
def rowKey (r : CombinedRow) : (Bool ×ₗ Int) ×ₗ (Bool ×ₗ Int) :=
  toLex (optKey r.buno, optKey r.start)

/-- Ascending comparison by the lexicographic key. -/
def ledgerLe (a b : CombinedRow) : Bool :=
  decide (rowKey a ≤ rowKey b)

/-- The final sort of the combined ledger. -/
def sortCombined (l : List CombinedRow) : List CombinedRow :=
  l.mergeSort ledgerLe

/-- Two ledger rows with identical sort keys and different payloads. -/
def combinedTieRowA : CombinedRow := { buno := some 1, start := some 5, payload := 0 }

/-- Second tied ledger row. -/
def combinedTieRowB : CombinedRow := { buno := some 1, start := some 5, payload := 1 }

end DepoSched

namespace DepoSched

theorem toUpper_eq_digit_iff {c : Char} {d : Char} (hd : d.toNat = 49 ∨ d.toNat = 50) :
    Char.toUpper c = d ↔ c = d := by
  by_cases hc : c.toNat ≥ 97 ∧ c.toNat ≤ 122
  · have hup : Char.toUpper c = Char.ofNat (c.toNat - 32) := by
      simp [Char.toUpper, hc]
    constructor
    · intro h
      exfalso
      have hlt : c.toNat - 32 < 55296 := by omega
      have hvalid : (c.toNat - 32).isValidChar := Or.inl hlt
      have htn : (Char.ofNat (c.toNat - 32)).toNat = c.toNat - 32 := by
        simp only [Char.ofNat, hvalid, dif_pos]
        simp [Char.ofNatAux, Char.toNat, UInt32.toNat]
      rw [← hup, h] at htn
      omega
    · intro h
      exfalso
      subst h
      omega
  · have hup : Char.toUpper c = c := by
      simp [Char.toUpper, hc]
    rw [hup]

theorem mem_digit_pyUpper {s : List Char} {d : Char} (hd : d.toNat = 49 ∨ d.toNat = 50) :
    d ∈ pyUpper s ↔ d ∈ s := by
  unfold pyUpper
  rw [List.mem_map]
  constructor
  · rintro ⟨c, hc, hcd⟩
    rwa [(toUpper_eq_digit_iff hd).mp hcd] at hc
  · intro h
    exact ⟨d, h, (toUpper_eq_digit_iff hd).mpr rfl⟩

theorem count_replAll_self {a b : Char} (hab : a ≠ b) (s : List Char) :
    (replAll a b s).count a = 0 := by
  induction s with
  | nil => rfl
  | cons c rest ih =>
    unfold replAll at *
    simp only [List.map_cons, List.count_cons, ih]
    by_cases hc : c = a
    · simp [hc, Ne.symm hab]
    · simp [hc, Ne.symm hc]

theorem count_replAll_target {a b : Char} (hab : a ≠ b) (s : List Char) :
    (replAll a b s).count b = s.count a + s.count b := by
  induction s with
  | nil => rfl
  | cons c rest ih =>
    unfold replAll at *
    simp only [List.map_cons, List.count_cons, ih]
    by_cases hc : c = a
    · simp [hc, hab, Ne.symm hab]
      omega
    · by_cases hcb : c = b
      · simp [hc, hcb, hab, Ne.symm hab]
        omega
      · simp [hc, hcb, Ne.symm hc, Ne.symm hcb]

theorem replAll_replAll_cancel {a b : Char} {s : List Char}
    (hb : b ∉ s) : replAll b a (replAll a b s) = s := by
  induction s with
  | nil => rfl
  | cons c rest ih =>
    have hbr : b ∉ rest := fun h => hb (List.mem_cons_of_mem _ h)
    have hbc : c ≠ b := fun h => hb (h ▸ List.mem_cons_self c rest)
    unfold replAll at *
    simp only [List.map_cons, ih hbr]
    by_cases hc : c = a
    · simp [hc]
    · simp [hc, hbc]

/-- Claim C9: toggling a PMI task label twice returns the original label, for
any label containing exactly one character from the pair 1/2. -/
theorem pmi_toggle_involution (t : List Char)
    (h : t.count '1' + t.count '2' = 1) :
    get_next_pmi_task (get_next_pmi_task t) = t := by
  have h12 : ('1' : Char) ≠ '2' := by decide
  rcases Nat.eq_zero_or_pos (t.count '1') with h1 | h1
  · -- the single digit is a 2
    have h2 : t.count '2' = 1 := by omega
    have hn1 : '1' ∉ t := by
      intro hm
      rw [← List.count_pos_iff] at hm
      omega
    have hstep1 : get_next_pmi_task t = replAll '2' '1' t := by
      unfold get_next_pmi_task
      rw [if_neg]
      intro hm
      exact hn1 ((mem_digit_pyUpper (Or.inl (by decide))).mp hm)
    have hone : ('1' : Char) ∈ replAll '2' '1' t := by
      rw [← List.count_pos_iff, count_replAll_target h12.symm t]
      omega
    have hstep2 : get_next_pmi_task (replAll '2' '1' t) = replAll '1' '2' (replAll '2' '1' t) := by
      unfold get_next_pmi_task
      rw [if_pos ((mem_digit_pyUpper (Or.inl (by decide))).mpr hone)]
    rw [hstep1, hstep2]
    exact replAll_replAll_cancel hn1
  · -- the single digit is a 1
    have h1e : t.count '1' = 1 := by omega
    have h2 : t.count '2' = 0 := by omega
    have hm1 : '1' ∈ t := List.count_pos_iff.mp (by omega)
    have hn2 : '2' ∉ t := by
      intro hm
      rw [← List.count_pos_iff] at hm
      omega
    have hstep1 : get_next_pmi_task t = replAll '1' '2' t := by
      unfold get_next_pmi_task
      rw [if_pos ((mem_digit_pyUpper (Or.inl (by decide))).mpr hm1)]
    have hnone : ('1' : Char) ∉ replAll '1' '2' t := by
      intro hm
      rw [← List.count_pos_iff, count_replAll_self h12 t] at hm
      omega
    have hstep2 : get_next_pmi_task (replAll '1' '2' t) = replAll '2' '1' (replAll '1' '2' t) := by
      unfold get_next_pmi_task
      rw [if_neg]
      intro hm
      exact hnone ((mem_digit_pyUpper (Or.inl (by decide))).mp hm)
    rw [hstep1, hstep2]
    exact replAll_replAll_cancel hn2

/-- Witness for C9 at the concrete label PMI1. -/
theorem pmi_toggle_involution_witness :
    ("PMI1".data.count '1' + "PMI1".data.count '2' = 1) ∧
      get_next_pmi_task (get_next_pmi_task "PMI1".data) = "PMI1".data :=
  ⟨by decide, pmi_toggle_involution "PMI1".data (by decide)⟩

/-- Claim C2 (counterexample): the toggle is not a first-occurrence-only
substitution.  On the label PMI11 the code replaces every 1, producing PMI22,
while the claim's first-occurrence substitution would produce PMI21. -/
theorem next_pmi_task_not_first_occurrence_cx :
    get_next_pmi_task "PMI11".data = "PMI22".data ∧
      get_next_pmi_task_specFirst "PMI11".data = "PMI21".data ∧
      get_next_pmi_task "PMI11".data ≠ get_next_pmi_task_specFirst "PMI11".data := by
  refine ⟨by decide, by decide, by decide⟩

/-- Claim C2 (amended): the toggle replaces every occurrence of the toggled
digit, not only the first: position by position, when the label contains a 1
every 1 becomes 2 and all other characters are unchanged; otherwise every 2
becomes 1 and all other characters are unchanged. -/
theorem next_pmi_task_replaces_all_occurrences (t : List Char) (i : Nat) :
    (get_next_pmi_task t)[i]? =
      (t[i]?).map (fun c =>
        if '1' ∈ pyUpper t then (if c = '1' then '2' else c)
        else (if c = '2' then '1' else c)) := by
  unfold get_next_pmi_task
  by_cases h : '1' ∈ pyUpper t
  · simp [h, replAll]
  · simp [h, replAll]



theorem ofDigits_natDigitsAux (fuel n : Nat) (h : n ≤ fuel) :
    (natDigitsAux fuel n).foldr (fun d acc => d + 10 * acc) 0 = n := by
  induction fuel generalizing n with
  | zero =>
    interval_cases n
    rfl
  | succ fuel ih =>
    cases n with
    | zero => rfl
    | succ m =>
      have hdiv : (m + 1) / 10 ≤ fuel := by
        have := Nat.div_lt_self (Nat.succ_pos m) (by omega : 1 < 10)
        omega
      simp only [natDigitsAux, List.foldr_cons, ih _ hdiv]
      omega

theorem natDigits_inj {m n : Nat} (h : natDigits m = natDigits n) : m = n := by
  have hm := ofDigits_natDigitsAux m m (Nat.le_refl m)
  have hn := ofDigits_natDigitsAux n n (Nat.le_refl n)
  unfold natDigits at h
  rw [← hm, ← hn, h]

theorem natDigitsAux_lt_ten {fuel n : Nat} :
    ∀ d ∈ natDigitsAux fuel n, d < 10 := by
  induction fuel generalizing n with
  | zero =>
    intro d hd
    simp [natDigitsAux] at hd
  | succ fuel ih =>
    intro d hd
    cases n with
    | zero => simp [natDigitsAux] at hd
    | succ m =>
      simp only [natDigitsAux, List.mem_cons] at hd
      rcases hd with hd | hd
      · subst hd
        exact Nat.mod_lt _ (by omega)
      · exact ih _ hd

theorem digitChar_inj_lt :
    ∀ a < 10, ∀ b < 10, Nat.digitChar a = Nat.digitChar b → a = b := by decide

theorem map_digitChar_inj {l1 l2 : List Nat} (h1 : ∀ d ∈ l1, d < 10)
    (h2 : ∀ d ∈ l2, d < 10) (h : l1.map Nat.digitChar = l2.map Nat.digitChar) :
    l1 = l2 := by
  induction l1 generalizing l2 with
  | nil =>
    cases l2 with
    | nil => rfl
    | cons b t2 => simp at h
  | cons a t1 ih =>
    cases l2 with
    | nil => simp at h
    | cons b t2 =>
      simp only [List.map_cons, List.cons.injEq] at h
      have ha : a < 10 := h1 a (List.mem_cons_self a t1)
      have hb : b < 10 := h2 b (List.mem_cons_self b t2)
      have hab : a = b := digitChar_inj_lt a ha b hb h.1
      have ht : t1 = t2 :=
        ih (fun d hd => h1 d (List.mem_cons_of_mem _ hd))
          (fun d hd => h2 d (List.mem_cons_of_mem _ hd)) h.2
      rw [hab, ht]

theorem natChars_inj {m n : Nat} (h : natChars m = natChars n) : m = n := by
  unfold natChars at h
  by_cases hm : m = 0 <;> by_cases hn : n = 0
  · omega
  · exfalso
    rw [if_pos hm, if_neg hn] at h
    have hd := @map_digitChar_inj [0] (natDigits n) (by decide)
      (fun d hd => natDigitsAux_lt_ten d hd) ?_
    · have : n = 0 := by
        have := ofDigits_natDigitsAux n n (Nat.le_refl n)
        unfold natDigits at hd
        rw [← hd] at this
        simpa using this.symm
      exact hn this
    · have : ((natDigits n).map Nat.digitChar).reverse = ['0'] := h.symm
      have hrev : (natDigits n).map Nat.digitChar = ['0'] := by
        have := congrArg List.reverse this
        simpa using this
      simpa using hrev.symm
  · exfalso
    rw [if_neg hm, if_pos hn] at h
    have hrev : (natDigits m).map Nat.digitChar = ['0'] := by
      have := congrArg List.reverse h
      simpa using this
    have hd := @map_digitChar_inj (natDigits m) [0]
      (fun d hd => natDigitsAux_lt_ten d hd) (by decide) (by simpa using hrev)
    have : m = 0 := by
      have := ofDigits_natDigitsAux m m (Nat.le_refl m)
      unfold natDigits at hd
      rw [hd] at this
      simpa using this.symm
    exact hm this
  · rw [if_neg hm, if_neg hn] at h
    have hrev := congrArg List.reverse h
    simp only [List.reverse_reverse] at hrev
    exact natDigits_inj (map_digitChar_inj
      (fun d hd => natDigitsAux_lt_ten d hd)
      (fun d hd => natDigitsAux_lt_ten d hd) hrev)

/-- Claim C1 (counterexample): the dedup pass does not make `BUNO_key` unique
for every input.  With keys `100_2024_T`, `100_2024_T`, `100_2024_T_1`, the
second duplicate becomes `100_2024_T_1`, colliding with the third row's
untouched key. -/
theorem buno_key_not_globally_unique_cx :
    add_enhanced_buno_key dedupCxRows =
      ["100_2024_T_0".data, "100_2024_T_1".data, "100_2024_T_1".data] ∧
      ¬ (add_enhanced_buno_key dedupCxRows).Nodup := by
  constructor
  · decide
  · decide

theorem count_take_lt {ks : List (List Char)} {i j : Nat} {k : List Char}
    (hij : i < j) (hj : j ≤ ks.length) (hik : ks.getD i [] = k) :
    (ks.take i).count k < (ks.take j).count k := by
  have hi : i < ks.length := Nat.lt_of_lt_of_le hij hj
  have hk : ks[i] = k := by
    rw [← hik, List.getD_eq_getElem?_getD, List.getElem?_eq_getElem hi]
    rfl
  have h1 : ks.take (i + 1) = ks.take i ++ [k] := by
    rw [List.take_add]
    congr 1
    rw [List.drop_eq_getElem_cons hi, hk]
    rfl
  have h2 : ks.take j = ks.take (i + 1) ++ (ks.drop (i + 1)).take (j - (i + 1)) := by
    rw [← List.take_add]
    congr 1
    omega
  rw [h2, h1]
  simp only [List.count_append, List.append_assoc]
  have hck : List.count k [k] = 1 := by simp
  omega

/-- Claim C1 (amended): within any group of rows that share a pre-dedup
`BUNO_key`, the post-dedup keys are pairwise distinct — each member of the
group receives a distinct `_0`, `_1`, ... suffix.  (Global uniqueness over
the whole ledger does not hold; see the counterexample.) -/
theorem buno_key_dedup_within_group_distinct (rows : List KeyRec) (i j : Nat)
    (hi : i < rows.length) (hj : j < rows.length) (hij : i < j)
    (hkey : origKey rows[i] = origKey rows[j]) :
    (add_enhanced_buno_key rows)[i]? ≠ (add_enhanced_buno_key rows)[j]? := by
  have hks : (rows.map origKey).length = rows.length := List.length_map rows origKey
  set ks := rows.map origKey with hksdef
  have hgdi : ks.getD i [] = origKey rows[i] := by
    rw [hksdef, List.getD_eq_getElem?_getD, List.getElem?_map,
      List.getElem?_eq_getElem hi]
    rfl
  have hgdj : ks.getD j [] = origKey rows[j] := by
    rw [hksdef, List.getD_eq_getElem?_getD, List.getElem?_map,
      List.getElem?_eq_getElem hj]
    rfl
  set k := origKey rows[i] with hkdef
  have hgdj2 : ks.getD j [] = k := by rw [hgdj, ← hkey]
  have hcij : (ks.take i).count k < (ks.take j).count k :=
    count_take_lt hij (by omega) hgdi
  have hcjj : (ks.take j).count k < (ks.take (j + 1)).count k :=
    count_take_lt (Nat.lt_succ_self j) (by omega) hgdj2
  have hprefix : (ks.take (j + 1)).count k ≤ ks.count k := by
    conv_rhs => rw [← List.take_append_drop (j + 1) ks]
    rw [List.count_append]
    omega
  have hcnt2 : 2 ≤ ks.count k := by omega
  have hai : (add_enhanced_buno_key rows)[i]? =
      some (k ++ '_' :: natChars ((ks.take i).count k)) := by
    unfold add_enhanced_buno_key
    rw [List.getElem?_map, List.getElem?_range hi]
    simp only [Option.map_some']
    unfold newKeyAt
    rw [← hksdef, hgdi, if_pos hcnt2]
  have haj : (add_enhanced_buno_key rows)[j]? =
      some (k ++ '_' :: natChars ((ks.take j).count k)) := by
    unfold add_enhanced_buno_key
    rw [List.getElem?_map, List.getElem?_range hj]
    simp only [Option.map_some']
    unfold newKeyAt
    rw [← hksdef, hgdj2, if_pos hcnt2]
  rw [hai, haj]
  intro hcontra
  have heq : k ++ '_' :: natChars ((ks.take i).count k) =
      k ++ '_' :: natChars ((ks.take j).count k) := by
    exact Option.some.inj hcontra
  have hsuffix := List.append_cancel_left heq
  have hchars : natChars ((ks.take i).count k) = natChars ((ks.take j).count k) :=
    List.cons.inj hsuffix |>.2
  have := natChars_inj hchars
  omega

/-- Witness for C1 (amended) on the concrete collision group of
`dedupCxRows` (rows 0 and 1 share the key `100_2024_T`). -/
theorem buno_key_dedup_within_group_distinct_witness :
    (add_enhanced_buno_key dedupCxRows)[0]? ≠ (add_enhanced_buno_key dedupCxRows)[1]? :=
  buno_key_dedup_within_group_distinct dedupCxRows 0 1 (by decide) (by decide)
    (by decide) (by decide)

/-- Claim C3 (counterexample): the assembler does not backfill a record whose
fiscal values are null when another record of the same stream already carries
non-null fiscal values.  In `fiscalCxRows` the second record keeps
`fy = none`, `qtr = none` although its start date is present and the fiscal
calendar maps it to year 1970, quarter 2. -/
theorem fiscal_backfill_partial_null_cx :
    fiscalStep fiscalCxRows = fiscalCxRows ∧
      (fiscalStep fiscalCxRows)[1]? = some { start := some 0, fy := none, qtr := none } ∧
      calculate_fiscal_year (some 0) = some 1970 ∧
      calculate_fiscal_quarter (some 0) = some 2 := by
  refine ⟨by decide, by decide, by decide, by decide⟩

/-- Claim C3 (amended): the fiscal backfill is column-at-a-time per stream:
every record's quarter (resp. year) is recomputed from its start date
exactly when the whole stream's quarter (resp. year) column is null;
otherwise every record keeps its original value, so a null fiscal field in a
stream that has any non-null one stays null. -/
theorem fiscal_backfill_column_level (l : List LedgerRec) :
    fiscalStep l = l.map (fun r =>
      { r with
        fy := if l.all (fun x => x.fy.isNone) then calculate_fiscal_year r.start else r.fy,
        qtr := if l.all (fun x => x.qtr.isNone) then calculate_fiscal_quarter r.start else r.qtr }) := by
  unfold fiscalStep
  by_cases hq : l.all (fun r => r.qtr.isNone)
  · have hfy : ((l.map (fun r => { r with qtr := calculate_fiscal_quarter r.start })).all
        (fun r => r.fy.isNone)) = l.all (fun r => r.fy.isNone) := by
      rw [List.all_map]
      rfl
    by_cases hf : l.all (fun r => r.fy.isNone)
    · simp only [if_pos hq, hfy, if_pos hf, List.map_map]
      rfl
    · simp only [if_pos hq, hfy, if_neg hf]
  · by_cases hf : l.all (fun r => r.fy.isNone)
    · simp only [if_neg hq, if_pos hf]
    · simp only [if_neg hq, if_neg hf]
      have : (fun (r : LedgerRec) => { r with fy := r.fy, qtr := r.qtr }) = fun r => r := by
        funext r
        rfl
      rw [this]
      exact (List.map_id l).symm

/-- Claim C6 (counterexample): a qualifying MAF row with a missing `Buno`
still yields a 546-day record, and that record's aircraft id is null — the
extracted event stream (which feeds the combined ledger) contains a record
with `BUNO = None`. -/
theorem maf_546_null_buno_record_cx :
    (analyze_maf_546_events [mafNullBunoCxRow]).map (fun e => e.buno) = [none] := by
  decide

/-- Claim C6 (amended): every 546-day event extracted from a qualifying MAF
row carries exactly the row's `Buno`: it is non-null precisely when the row
supplies one, and a qualifying row with a missing `Buno` still yields a
record, with a null aircraft id. -/
theorem maf_546_event_buno_eq_row_buno (row : MafRow) :
    ((maf_546_event_of_row row).all fun e => e.buno == row.buno) = true := by
  unfold maf_546_event_of_row
  by_cases hm : maf546Match row
  · rw [if_pos hm]
    cases hsel : selectStart (mafDateFields row) with
    | none => rfl
    | some p =>
      cases p with
      | mk src d => simp [Option.all]
  · rw [if_neg hm]
    rfl

/-- Claim C7 (counterexample): the 21-day offset is not exact for every
qualifying row.  A qualifying row whose date parses to 2262-04-01
(day 106741, within `pd.Timestamp` bounds) yields an event, but adding 21
days overflows the bounded timestamp arithmetic, the bare `except` fires,
and the fallback reuses the start date: finish − start = 0, not 21. -/
theorem maf_546_finish_overflow_cx :
    (analyze_maf_546_events [mafOverflowCxRow]).map (fun e => (e.startDate, e.finishDate)) =
      [(106741, 106741)] ∧
      ((analyze_maf_546_events [mafOverflowCxRow]).all fun e =>
        e.finishDate == e.startDate + 21) = false := by
  refine ⟨by decide, by decide⟩

/-- Claim C7 (amended): every 546-day event extracted from a qualifying MAF
row has a finish date exactly 21 days after its start date, except when the
computed finish would pass the pandas timestamp upper bound (a start date
within 21 days of 2262-04-11): there the overflow fallback reuses the start
date, so finish equals start. -/
theorem maf_546_finish_offset_or_overflow (rows : List MafRow) :
    ((analyze_maf_546_events rows).all fun e =>
      (e.finishDate == e.startDate + DAY_546_OFFSET) ||
        (decide (PD_MAX_DAY < e.startDate + DAY_546_OFFSET) &&
          (e.finishDate == e.startDate))) = true := by
  rw [List.all_eq_true]
  intro e he
  unfold analyze_maf_546_events at he
  rw [List.mem_filterMap] at he
  obtain ⟨row, hrow, hev⟩ := he
  unfold maf_546_event_of_row at hev
  by_cases hm : maf546Match row
  · rw [if_pos hm] at hev
    cases hsel : selectStart (mafDateFields row) with
    | none =>
      rw [hsel] at hev
      exact absurd hev (by simp)
    | some p =>
      cases p with
      | mk src d =>
        rw [hsel] at hev
        have he2 := Option.some.inj hev
        rw [← he2]
        by_cases hb : d + DAY_546_OFFSET > PD_MAX_DAY
        · simp [if_pos hb, hb]
        · simp [if_neg hb]
  · rw [if_neg hm] at hev
    exact absurd hev (by simp)

theorem slepLoop_cons_hit {r : BBRow} {rest : List BBRow} {counter : Nat} {b fh : Int}
    (hb : r.buno = some b) (hf : r.flightHours = some fh) :
    slepLoop (r :: rest) counter =
      (if fh ≥ MAX_LIFE_THRESHOLD then
        mkSlepEvent b fh "MAX_AIRCRAFT_LIFE".data 180 counter :: slepLoop rest (counter + 1)
      else if fh ≥ SLEP_3_THRESHOLD then
        mkSlepEvent b fh "SLEP_3".data 90 counter :: slepLoop rest (counter + 1)
      else if fh ≥ SLEP_2_THRESHOLD then
        mkSlepEvent b fh "SLEP_2".data 90 counter :: slepLoop rest (counter + 1)
      else if fh ≥ SLEP_1_THRESHOLD then
        mkSlepEvent b fh "SLEP_1".data 90 counter :: slepLoop rest (counter + 1)
      else slepLoop rest counter) := by
  conv_lhs => unfold slepLoop
  rw [hb, hf]

theorem slepLoop_cons_skip_buno {r : BBRow} {rest : List BBRow} {counter : Nat}
    (hb : r.buno = none) : slepLoop (r :: rest) counter = slepLoop rest counter := by
  conv_lhs => unfold slepLoop
  rw [hb]

theorem slepLoop_cons_skip_fh {r : BBRow} {rest : List BBRow} {counter : Nat} {b : Int}
    (hb : r.buno = some b) (hf : r.flightHours = none) :
    slepLoop (r :: rest) counter = slepLoop rest counter := by
  conv_lhs => unfold slepLoop
  rw [hb, hf]

theorem slepLoop_buno_mem {rows : List BBRow} {counter : Nat} {e : SlepEvent}
    (he : e ∈ slepLoop rows counter) :
    e.buno ∈ rows.filterMap (fun r => r.buno) := by
  induction rows generalizing counter with
  | nil => simp [slepLoop] at he
  | cons r rest ih =>
    cases hb : r.buno with
    | none =>
      rw [slepLoop_cons_skip_buno hb] at he
      rw [List.filterMap_cons_none (show (fun r => r.buno) r = none from hb)]
      exact ih he
    | some b =>
      rw [List.filterMap_cons_some (show (fun r => r.buno) r = some b from hb)]
      cases hf : r.flightHours with
      | none =>
        rw [slepLoop_cons_skip_fh hb hf] at he
        exact List.mem_cons_of_mem _ (ih he)
      | some fh =>
        rw [slepLoop_cons_hit hb hf] at he
        have hcase : ∀ {c2 : Nat} {task : List Char} {dur : Int},
            e ∈ mkSlepEvent b fh task dur counter :: slepLoop rest c2 →
            e.buno ∈ b :: rest.filterMap (fun r => r.buno) := by
          intro c2 task dur hmem
          rcases List.mem_cons.mp hmem with he1 | he2
          · subst he1
            exact List.mem_cons_self _ _
          · exact List.mem_cons_of_mem _ (ih he2)
        by_cases h4 : fh ≥ MAX_LIFE_THRESHOLD
        · rw [if_pos h4] at he
          exact hcase he
        · rw [if_neg h4] at he
          by_cases h3 : fh ≥ SLEP_3_THRESHOLD
          · rw [if_pos h3] at he
            exact hcase he
          · rw [if_neg h3] at he
            by_cases h2 : fh ≥ SLEP_2_THRESHOLD
            · rw [if_pos h2] at he
              exact hcase he
            · rw [if_neg h2] at he
              by_cases h1 : fh ≥ SLEP_1_THRESHOLD
              · rw [if_pos h1] at he
                exact hcase he
              · rw [if_neg h1] at he
                exact List.mem_cons_of_mem _ (ih he)

theorem slepLoop_map_buno_nodup {rows : List BBRow}
    (hnd : (rows.filterMap (fun r => r.buno)).Nodup) (counter : Nat) :
    ((slepLoop rows counter).map (fun e => e.buno)).Nodup := by
  induction rows generalizing counter with
  | nil => simp [slepLoop]
  | cons r rest ih =>
    cases hb : r.buno with
    | none =>
      rw [List.filterMap_cons_none (show (fun r => r.buno) r = none from hb)] at hnd
      rw [slepLoop_cons_skip_buno hb]
      exact ih hnd counter
    | some b =>
      rw [List.filterMap_cons_some (show (fun r => r.buno) r = some b from hb)] at hnd
      have hbtail : b ∉ rest.filterMap (fun r => r.buno) := (List.nodup_cons.mp hnd).1
      have hndtail := (List.nodup_cons.mp hnd).2
      cases hf : r.flightHours with
      | none =>
        rw [slepLoop_cons_skip_fh hb hf]
        exact ih hndtail counter
      | some fh =>
        rw [slepLoop_cons_hit hb hf]
        have hhead : ∀ (task : List Char) (dur : Int) (c2 : Nat),
            ((mkSlepEvent b fh task dur counter :: slepLoop rest c2).map
              (fun e => e.buno)).Nodup := by
          intro task dur c2
          rw [List.map_cons, List.nodup_cons]
          refine ⟨?_, ih hndtail c2⟩
          intro hmem
          rw [List.mem_map] at hmem
          obtain ⟨e, hem, hbe⟩ := hmem
          have := slepLoop_buno_mem hem
          rw [hbe] at this
          exact hbtail this
        by_cases h4 : fh ≥ MAX_LIFE_THRESHOLD
        · rw [if_pos h4]
          exact hhead _ _ _
        · rw [if_neg h4]
          by_cases h3 : fh ≥ SLEP_3_THRESHOLD
          · rw [if_pos h3]
            exact hhead _ _ _
          · rw [if_neg h3]
            by_cases h2 : fh ≥ SLEP_2_THRESHOLD
            · rw [if_pos h2]
              exact hhead _ _ _
            · rw [if_neg h2]
              by_cases h1 : fh ≥ SLEP_1_THRESHOLD
              · rw [if_pos h1]
                exact hhead _ _ _
              · rw [if_neg h1]
                exact ih hndtail counter

theorem slepLoop_tier {rows : List BBRow} {counter : Nat} {e : SlepEvent}
    (he : e ∈ slepLoop rows counter) : slepTierSpec e := by
  induction rows generalizing counter with
  | nil => simp [slepLoop] at he
  | cons r rest ih =>
    cases hb : r.buno with
    | none =>
      rw [slepLoop_cons_skip_buno hb] at he
      exact ih he
    | some b =>
      cases hf : r.flightHours with
      | none =>
        rw [slepLoop_cons_skip_fh hb hf] at he
        exact ih he
      | some fh =>
        rw [slepLoop_cons_hit hb hf] at he
        by_cases h4 : fh ≥ MAX_LIFE_THRESHOLD
        · rw [if_pos h4] at he
          rcases List.mem_cons.mp he with he1 | he2
          · subst he1
            exact Or.inl ⟨h4, rfl, rfl⟩
          · exact ih he2
        · rw [if_neg h4] at he
          by_cases h3 : fh ≥ SLEP_3_THRESHOLD
          · rw [if_pos h3] at he
            rcases List.mem_cons.mp he with he1 | he2
            · subst he1
              exact Or.inr (Or.inl ⟨h3, show fh < MAX_LIFE_THRESHOLD by omega, rfl, rfl⟩)
            · exact ih he2
          · rw [if_neg h3] at he
            by_cases h2 : fh ≥ SLEP_2_THRESHOLD
            · rw [if_pos h2] at he
              rcases List.mem_cons.mp he with he1 | he2
              · subst he1
                exact Or.inr (Or.inr (Or.inl ⟨h2, show fh < SLEP_3_THRESHOLD by omega, rfl, rfl⟩))
              · exact ih he2
            · rw [if_neg h2] at he
              by_cases h1 : fh ≥ SLEP_1_THRESHOLD
              · rw [if_pos h1] at he
                rcases List.mem_cons.mp he with he1 | he2
                · subst he1
                  exact Or.inr (Or.inr (Or.inr ⟨h1, show fh < SLEP_2_THRESHOLD by omega, rfl, rfl⟩))
                · exact ih he2
              · rw [if_neg h1] at he
                exact ih he

/-- Claim C4 (counterexample): with two observation rows for the same
aircraft, the generator emits two SLEP events for that aircraft, so "at most
one SLEP event per aircraft_id for every input collection" is false. -/
theorem slep_duplicate_buno_two_events_cx :
    (analyze_bumblebee_slep_events slepDupCxRows).map (fun e => e.buno) = [1, 1] ∧
      ¬ ((analyze_bumblebee_slep_events slepDupCxRows).map (fun e => e.buno)).Nodup := by
  refine ⟨by decide, by decide⟩

/-- Claim C4 (amended): when every aircraft id occurs in at most one input
row (the interface's "a flight-hour observation per aircraft"), the SLEP
generator emits at most one event per aircraft id; every emitted event is
classified by the first matching threshold evaluated high-to-low with its
tier duration (`MAX_LIFE` 180 days, then `SLEP_3`, `SLEP_2`, `SLEP_1` at 90
days), and nothing is emitted below the lowest threshold. -/
theorem slep_unique_buno_classification (rows : List BBRow)
    (hnodup : (rows.filterMap (fun r => r.buno)).Nodup) :
    ((analyze_bumblebee_slep_events rows).map (fun e => e.buno)).Nodup ∧
      ∀ e ∈ analyze_bumblebee_slep_events rows, slepTierSpec e :=
  ⟨slepLoop_map_buno_nodup hnodup 0, fun _ he => slepLoop_tier he⟩

/-- Witness for C4 (amended) on a single observation row. -/
theorem slep_unique_buno_classification_witness :
    ((analyze_bumblebee_slep_events [{ buno := some 7, flightHours := some 12000 }]).map
      (fun e => e.buno)).Nodup ∧
      ∀ e ∈ analyze_bumblebee_slep_events [{ buno := some 7, flightHours := some 12000 }],
        slepTierSpec e :=
  slep_unique_buno_classification _ (by decide)

theorem pmiLoop_length_le (i12 i21 endDate : Int) (buno : Option Int)
    (tms : Option (List Char)) :
    ∀ (fuel : Nat) (cur : Int) (task : List Char),
      (pmiLoop i12 i21 endDate buno tms fuel cur task).length ≤ fuel := by
  intro fuel
  induction fuel with
  | zero =>
    intro cur task
    simp [pmiLoop]
  | succ n ih =>
    intro cur task
    unfold pmiLoop
    by_cases h1 : cur < endDate
    · rw [if_pos h1]
      by_cases h2 : addMonths cur (if '1' ∈ task then i12 else i21) ≥ endDate
      · rw [if_pos h2]
        simp
      · rw [if_neg h2]
        rw [List.length_cons]
        have := ih (addMonths cur (if '1' ∈ task then i12 else i21)) (get_next_pmi_task task)
        omega
    · rw [if_neg h1]
      simp

/-- Claim C10: the PMI projection loop terminates for every aircraft and its
per-aircraft iteration cap of 100 bounds the generated event list: no input
ever produces more than 100 projected events (the bound on the generic loop,
`pmiLoop_length_le`, holds for every interval configuration). -/
theorem pmi_projection_at_most_100 (buno : Option Int) (df : List DepotRow) :
    (generate_future_events_enhanced buno df).length ≤ 100 := by
  unfold generate_future_events_enhanced
  cases hfind : find_last_pmi_task df with
  | none => simp
  | some lastPmiTask =>
    cases hdate : get_most_recent_date df with
    | none => simp
    | some lastDate =>
      dsimp only
      by_cases ha : amargSqdCheck (get_last_squadron df lastDate)
      · rw [if_pos ha]
        simp
      · rw [if_neg ha]
        by_cases hb : df.any (fun r => r.isAmarg)
        · rw [if_pos hb]
          simp
        · rw [if_neg hb]
          exact pmiLoop_length_le _ _ _ _ _ 100 _ _

/-- Claim C8: an aircraft whose derived unit assignment contains "AMARG"
(case-insensitively, on a non-empty assignment) or that has at least one
historical row flagged AMARG gets zero projected PMI events. -/
theorem amarg_aircraft_no_pmi_projection (buno : Option Int) (df : List DepotRow)
    (h : amargSqdCheck (lastSqdOf df) = true ∨ ∃ r ∈ df, r.isAmarg = true) :
    generate_future_events_enhanced buno df = [] := by
  unfold generate_future_events_enhanced
  cases hfind : find_last_pmi_task df with
  | none => rfl
  | some lastPmiTask =>
    cases hdate : get_most_recent_date df with
    | none => rfl
    | some lastDate =>
      dsimp only
      have hsqd : lastSqdOf df = get_last_squadron df lastDate := by
        unfold lastSqdOf
        rw [hdate]
      by_cases ha : amargSqdCheck (get_last_squadron df lastDate)
      · rw [if_pos ha]
      · rw [if_neg ha]
        rcases h with h | ⟨r, hr, hAm⟩
        · rw [hsqd] at h
          exact absurd h ha
        · rw [if_pos (List.any_eq_true.mpr ⟨r, hr, hAm⟩)]

/-- Witness for C8: a one-row history flagged AMARG produces no events. -/
theorem amarg_aircraft_no_pmi_projection_witness :
    generate_future_events_enhanced (some 5) [amargCxRow] = [] :=
  amarg_aircraft_no_pmi_projection (some 5) [amargCxRow]
    (Or.inr ⟨amargCxRow, by decide, by decide⟩)

theorem ledgerLe_trans (a b c : CombinedRow) (hab : ledgerLe a b) (hbc : ledgerLe b c) :
    ledgerLe a c := by
  simp only [ledgerLe, decide_eq_true_eq] at hab hbc ⊢
  exact le_trans hab hbc

theorem ledgerLe_total (a b : CombinedRow) : ledgerLe a b || ledgerLe b a := by
  simp only [ledgerLe]
  rcases le_total (rowKey a) (rowKey b) with h | h
  · simp [h]
  · simp [h]

/-- Claim C5: the final combined ledger sort is an ascending lexicographic
sort by (aircraft id, start date) — the result is a permutation of the
input, it is pairwise ordered by the lexicographic key (missing keys last),
and it is stable: any two rows with equal aircraft id and equal start date
that appear in a given order in the input appear in that same order in the
output. -/
theorem combined_sort_sorted_perm_stable (l : List CombinedRow) :
    (sortCombined l).Perm l ∧
      (sortCombined l).Pairwise (fun a b => ledgerLe a b = true) ∧
      ∀ a b : CombinedRow, a.buno = b.buno → a.start = b.start →
        List.Sublist [a, b] l → List.Sublist [a, b] (sortCombined l) := by
  refine ⟨List.mergeSort_perm l ledgerLe,
    List.sorted_mergeSort ledgerLe_trans ledgerLe_total l, ?_⟩
  intro a b hb hs hsub
  have hkey : rowKey a = rowKey b := by
    unfold rowKey
    rw [hb, hs]
  have hle : ledgerLe a b = true := by
    simp only [ledgerLe, decide_eq_true_eq]
    exact le_of_eq hkey
  exact List.pair_sublist_mergeSort ledgerLe_trans ledgerLe_total hle hsub

/-- Witness for C5: two tied rows (same aircraft id and start date,
different payloads) keep their arrival order through the final sort. -/
theorem combined_sort_sorted_perm_stable_witness :
    List.Sublist [combinedTieRowA, combinedTieRowB]
      (sortCombined [combinedTieRowA, combinedTieRowB]) :=
  (combined_sort_sorted_perm_stable [combinedTieRowA, combinedTieRowB]).2.2
    combinedTieRowA combinedTieRowB (by decide) (by decide) (List.Sublist.refl _)

end DepoSched
